import Mathlib

/-!
Verification of `bitcoin_rds_utils.py`: the hourly OHLC aggregator
(`aggregate_hourly_data`, `execute_batch_insert`,
`fetch_and_store_historical_bitcoin_data`) and the technical-indicator
engine (`calculate_moving_average`, `calculate_rsi`,
`calculate_bollinger_bands`, `calculate_macd`).

Numeric cells of derived pandas columns are modelled by `Fl`, a float
value that is either a finite rational, `+inf`, `-inf`, or `NaN`, with
IEEE-754 arithmetic on those cases (the source relies on float
behaviour: `diff()` puts NaN in row 0, `avg_gain / avg_loss` divides by
zero, `rolling` leaves a NaN head).  Timestamps are integers (seconds);
`date_trunc('hour', ts)` is flooring to a multiple of 3600.
-/

/-- A pandas/numpy float cell: finite rational, `+inf`, `-inf`, or NaN. -/
inductive Fl where
  | fin (q : ℚ)
  | pinf
  | ninf
  | nan
deriving DecidableEq, Repr

namespace Fl

/-- IEEE addition restricted to the modelled cases. -/
def add : Fl → Fl → Fl
  | fin a, fin b => fin (a + b)
  | nan, _ => nan
  | _, nan => nan
  | pinf, ninf => nan
  | ninf, pinf => nan
  | pinf, _ => pinf
  | _, pinf => pinf
  | ninf, _ => ninf
  | _, ninf => ninf

/-- IEEE negation. -/
def neg : Fl → Fl
  | fin a => fin (-a)
  | pinf => ninf
  | ninf => pinf
  | nan => nan

/-- IEEE subtraction. -/
def sub (x y : Fl) : Fl := add x (neg y)

/-- IEEE multiplication restricted to the modelled cases. -/
def mul : Fl → Fl → Fl
  | fin a, fin b => fin (a * b)
  | nan, _ => nan
  | _, nan => nan
  | pinf, pinf => pinf
  | pinf, ninf => ninf
  | ninf, pinf => ninf
  | ninf, ninf => pinf
  | pinf, fin b => if b = 0 then nan else if 0 < b then pinf else ninf
  | fin a, pinf => if a = 0 then nan else if 0 < a then pinf else ninf
  | ninf, fin b => if b = 0 then nan else if 0 < b then ninf else pinf
  | fin a, ninf => if a = 0 then nan else if 0 < a then ninf else pinf

/-- IEEE division; zeros are `+0` (the model has no signed zero, and every
division by zero in the source divides by a rolling mean of non-negative
values, i.e. by `+0`). -/
def div : Fl → Fl → Fl
  | fin a, fin b =>
      if b = 0 then (if a = 0 then nan else if 0 < a then pinf else ninf)
      else fin (a / b)
  | nan, _ => nan
  | _, nan => nan
  | pinf, pinf => nan
  | pinf, ninf => nan
  | ninf, pinf => nan
  | ninf, ninf => nan
  | fin _, pinf => fin 0
  | fin _, ninf => fin 0
  | pinf, fin b => if 0 ≤ b then pinf else ninf
  | ninf, fin b => if 0 ≤ b then ninf else pinf

/-- Models `x > 0` as numpy evaluates it (False on NaN). -/
def gt0 : Fl → Bool
  | fin q => decide (0 < q)
  | pinf => true
  | _ => false

/-- Models `x < 0` as numpy evaluates it (False on NaN). -/
def lt0 : Fl → Bool
  | fin q => decide (q < 0)
  | ninf => true
  | _ => false

/-- Models `abs` on floats. -/
def fabs : Fl → Fl
  | fin q => fin |q|
  | nan => nan
  | _ => pinf

/-- The cell holds a finite (defined, non-NaN, non-infinite) value. -/
def isFin : Fl → Bool
  | fin _ => true
  | _ => false

end Fl

/-- One row of the price series handed to the engine
(`timestamp`, `price_usd`), as produced by `get_bitcoin_price_history`. -/
structure PRow where
  timestamp : ℤ
  price_usd : ℚ
deriving DecidableEq, Repr

/-- Models `df.sort_values("timestamp")` on the engine's input series. -/
def sortTs (df : List PRow) : List PRow :=
  List.insertionSort (fun a b => a.timestamp ≤ b.timestamp) df

/-- The `price_usd` column after sorting by timestamp. -/
def sortedPrices (df : List PRow) : List ℚ :=
  (sortTs df).map (·.price_usd)

/-- Sum of a window of float cells (left fold, as pandas accumulates). -/
def flSum (l : List Fl) : Fl := l.foldl Fl.add (Fl.fin 0)

/-- Models `series.rolling(window=w).mean()`: NaN while fewer than `w`
observations are available, otherwise the mean of the last `w` cells. -/
def rollingMeanFl (w : ℕ) (xs : List Fl) : List Fl :=
  (List.range xs.length).map fun i =>
    if w ≤ i + 1 then
      Fl.div (flSum ((xs.drop (i + 1 - w)).take w)) (Fl.fin w)
    else Fl.nan

/-- Output of `calculate_moving_average`: the (sorted) input rows plus the
`ma_{window}h` column. -/
structure MAResult where
  base : List PRow
  ma : List Fl
deriving Repr

/-- Models `calculate_moving_average` (bitcoin_rds_utils.py, lines 697-713):
sort by timestamp, copy, add `price_usd.rolling(window).mean()`. -/
def calculate_moving_average (df : List PRow) (window : ℕ) : MAResult :=
  let s := sortTs df
  { base := s
    ma := rollingMeanFl window ((s.map (·.price_usd)).map Fl.fin) }

/-- The `price_change` column of `calculate_rsi`:
`df["price_usd"].diff()` — NaN in row 0, else the step delta. -/
def priceChangeCol (xs : List ℚ) : List Fl :=
  (List.range xs.length).map fun i =>
    match i with
    | 0 => Fl.nan
    | j + 1 => Fl.fin (xs.getD (j + 1) 0 - xs.getD j 0)

/-- The `gain` column: `np.where(price_change > 0, price_change, 0)`.
NaN compares as not-greater, so row 0 gets `0`. -/
def gainCol (xs : List ℚ) : List Fl :=
  (priceChangeCol xs).map fun d => if d.gt0 then d else Fl.fin 0

/-- The `loss` column: `np.where(price_change < 0, abs(price_change), 0)`. -/
def lossCol (xs : List ℚ) : List Fl :=
  (priceChangeCol xs).map fun d => if d.lt0 then d.fabs else Fl.fin 0

/-- Models `avg_gain = df["gain"].rolling(window=window).mean()`. -/
def avgGainCol (xs : List ℚ) (w : ℕ) : List Fl :=
  rollingMeanFl w (gainCol xs)

/-- Models `avg_loss = df["loss"].rolling(window=window).mean()`. -/
def avgLossCol (xs : List ℚ) (w : ℕ) : List Fl :=
  rollingMeanFl w (lossCol xs)

/-- Models `rs = avg_gain / avg_loss` (elementwise float division). -/
def rsCol (xs : List ℚ) (w : ℕ) : List Fl :=
  List.zipWith Fl.div (avgGainCol xs w) (avgLossCol xs w)

/-- Models `df["rsi"] = 100 - (100 / (1 + rs))`. -/
def rsiCol (xs : List ℚ) (w : ℕ) : List Fl :=
  (rsCol xs w).map fun r =>
    Fl.sub (Fl.fin 100) (Fl.div (Fl.fin 100) (Fl.add (Fl.fin 1) r))

/-- Output of `calculate_rsi`: the (sorted) input rows plus the `rsi`
column (the intermediate columns are dropped before returning). -/
structure RSIResult where
  base : List PRow
  rsi : List Fl
deriving Repr

/-- Models `calculate_rsi` (bitcoin_rds_utils.py, lines 716-752). -/
def calculate_rsi (df : List PRow) (window : ℕ) : RSIResult :=
  let s := sortTs df
  { base := s
    rsi := rsiCol (s.map (·.price_usd)) window }

/-- Rolling sample variance (`ddof=1`, pandas default for `.std()`):
NaN while the window is not full, NaN for `w ≤ 1` (division by `w-1=0`),
else `Σ (x_j - mean)² / (w - 1)` over the window. -/
def rollingVarQ (w : ℕ) (xs : List ℚ) : List (Option ℚ) :=
  (List.range xs.length).map fun i =>
    if w ≤ i + 1 ∧ 2 ≤ w then
      let win := (xs.drop (i + 1 - w)).take w
      let m := win.sum / w
      some ((win.map fun x => (x - m) ^ 2).sum / (w - 1 : ℕ))
    else none

/-- Output of `calculate_bollinger_bands`: sorted rows plus
`bb_middle`, `bb_upper`, `bb_lower` (the upper/lower cells involve the
real square root of the rolling variance; `none` is NaN). -/
structure BBResult where
  base : List PRow
  bb_middle : List Fl
  bb_upper : List (Option ℝ)
  bb_lower : List (Option ℝ)

/-- Models `bb_middle = price_usd.rolling(window).mean()`. -/
def bbMiddleCol (xs : List ℚ) (w : ℕ) : List Fl :=
  rollingMeanFl w (xs.map Fl.fin)

/-- Models `bb_upper = bb_middle + rolling_std * num_std` where
`rolling_std = price_usd.rolling(window).std()` (sample std). -/
noncomputable def bbUpperCol (xs : List ℚ) (w : ℕ) (k : ℚ) : List (Option ℝ) :=
  List.zipWith
    (fun m v =>
      match m, v with
      | Fl.fin m, some v => some ((m : ℝ) + Real.sqrt (v : ℝ) * (k : ℝ))
      | _, _ => none)
    (bbMiddleCol xs w) (rollingVarQ w xs)

/-- Models `bb_lower = bb_middle - rolling_std * num_std`. -/
noncomputable def bbLowerCol (xs : List ℚ) (w : ℕ) (k : ℚ) : List (Option ℝ) :=
  List.zipWith
    (fun m v =>
      match m, v with
      | Fl.fin m, some v => some ((m : ℝ) - Real.sqrt (v : ℝ) * (k : ℝ))
      | _, _ => none)
    (bbMiddleCol xs w) (rollingVarQ w xs)

/-- Models `calculate_bollinger_bands` (bitcoin_rds_utils.py, lines 755-788). -/
noncomputable def calculate_bollinger_bands (df : List PRow) (window : ℕ)
    (num_std : ℚ) : BBResult :=
  let s := sortTs df
  let xs := s.map (·.price_usd)
  { base := s
    bb_middle := bbMiddleCol xs window
    bb_upper := bbUpperCol xs window num_std
    bb_lower := bbLowerCol xs window num_std }

/-- Models `series.ewm(span=..., adjust=False).mean()` after the head has been
consumed as the seed: emits the running value `y`, then recurses with
`y ← (1-α)·y + α·x`. -/
def ewmGo (α : ℚ) (y : Fl) : List Fl → List Fl
  | [] => [y]
  | x :: xs =>
      y :: ewmGo α (Fl.add (Fl.mul (Fl.fin (1 - α)) y) (Fl.mul (Fl.fin α) x)) xs

/-- Models `series.ewm(span=span, adjust=False).mean()`: smoothing
`α = 2/(span+1)`, seeded from the first value, no bias adjustment. -/
def ewmMean (span : ℕ) (xs : List Fl) : List Fl :=
  match xs with
  | [] => []
  | x :: rest => ewmGo (2 / (span + 1 : ℚ)) x rest

/-- Output of `calculate_macd`: sorted rows plus `macd`, `macd_signal`,
`macd_hist` (`ema_fast`/`ema_slow` are dropped before returning). -/
structure MACDResult where
  base : List PRow
  macd : List Fl
  macd_signal : List Fl
  macd_hist : List Fl
deriving Repr

/-- Models `calculate_macd` (bitcoin_rds_utils.py, lines 791-834). -/
def calculate_macd (df : List PRow) (fast_period slow_period signal_period : ℕ) :
    MACDResult :=
  let s := sortTs df
  let xs := (s.map (·.price_usd)).map Fl.fin
  let ema_fast := ewmMean fast_period xs
  let ema_slow := ewmMean slow_period xs
  let macd := List.zipWith Fl.sub ema_fast ema_slow
  let signal := ewmMean signal_period macd
  { base := s
    macd := macd
    macd_signal := signal
    macd_hist := List.zipWith Fl.sub macd signal }

/-! ## Aggregator model

`raw_bitcoin_prices` and `hourly_bitcoin_prices` are modelled as lists;
`aggregate_hourly_data` runs one transaction: it computes the hours
needing aggregation, builds OHLC buckets, writes them in batches of 100
via `execute_batch_insert` (an upsert on the hour key), and commits once
at the end.  A storage failure is injected by the index of the batch
whose write raises; the `except` branch then rolls the transaction back
and re-raises. -/

/-- A row of `raw_bitcoin_prices` (timestamp in seconds, price, volume). -/
structure Tick where
  timestamp : ℤ
  price_usd : ℚ
  volume_usd : ℚ
deriving DecidableEq, Repr

/-- A row of `hourly_bitcoin_prices`. -/
structure Bucket where
  timestamp : ℤ
  open_price_usd : ℚ
  high_price_usd : ℚ
  low_price_usd : ℚ
  close_price_usd : ℚ
  volume_usd : ℚ
deriving DecidableEq, Repr

/-- The database state: the two tables. -/
structure DB where
  raw : List Tick
  hourly : List Bucket
deriving DecidableEq, Repr

/-- Models `date_trunc('hour', t)`: floor to a multiple of 3600 seconds. -/
def truncHour (t : ℤ) : ℤ := (t / 3600) * 3600

/-- Models `NOW() - INTERVAL 'days days'`. -/
def cutoff (now : ℤ) (days : ℕ) : ℤ := now - days * 86400

/-- The `hours_query` of `aggregate_hourly_data`: distinct truncated
hours of raw rows newer than the cutoff that have no hourly row yet,
ascending. -/
def hoursNeeded (db : DB) (now : ℤ) (days : ℕ) : List ℤ :=
  List.insertionSort (fun a b => a ≤ b)
    ((((db.raw.filter fun t => cutoff now days < t.timestamp).map
        fun t => truncHour t.timestamp).dedup).filter
      fun h => h ∉ db.hourly.map (·.timestamp))

/-- The `hour_data_query`: raw rows with `hour ≤ ts < hour + 1h`,
ordered by timestamp. -/
def hourRows (db : DB) (hour : ℤ) : List Tick :=
  List.insertionSort (fun a b => a.timestamp ≤ b.timestamp)
    (db.raw.filter fun t => hour ≤ t.timestamp ∧ t.timestamp < hour + 3600)

/-- Fold of Python's `max` over a list seeded with its first element. -/
def qMax (x : ℚ) (l : List ℚ) : ℚ := l.foldl max x

/-- Fold of Python's `min` over a list seeded with its first element. -/
def qMin (x : ℚ) (l : List ℚ) : ℚ := l.foldl min x

/-- OHLC computation of `aggregate_hourly_data` (lines 472-481) for one
hour from its (already fetched, timestamp-ordered) rows:
open = first price, close = last price, high = max, low = min,
volume = mean of the rows' volumes. -/
def mkBucket (hour : ℤ) (rows : List Tick) : Bucket :=
  let prices := rows.map (·.price_usd)
  { timestamp := hour
    open_price_usd := prices.headD 0
    close_price_usd := prices.getLastD 0
    high_price_usd := qMax (prices.headD 0) prices
    low_price_usd := qMin (prices.headD 0) prices
    volume_usd := (rows.map (·.volume_usd)).sum / rows.length }

/-- The batch rows accumulated by the aggregation loop: one bucket per
needed hour whose row query is non-empty (`if not rows: continue`). -/
def bucketsFor (db : DB) (now : ℤ) (days : ℕ) : List Bucket :=
  (hoursNeeded db now days).filterMap fun h =>
    match hourRows db h with
    | [] => none
    | rows => some (mkBucket h rows)

/-- One upsert of `execute_batch_insert`'s `INSERT ... ON CONFLICT
(timestamp) DO UPDATE`: overwrite the row with the same hour key if it
exists, else append. -/
def upsert (hs : List Bucket) (b : Bucket) : List Bucket :=
  if b.timestamp ∈ hs.map (·.timestamp) then
    hs.map fun h => if h.timestamp = b.timestamp then b else h
  else hs ++ [b]

/-- Models `execute_batch_insert` (lines 503-525): `executemany` of the upsert
over the batch, against the transaction-local view of the hourly table. -/
def execute_batch_insert (pending : List Bucket) (batch : List Bucket) :
    List Bucket :=
  batch.foldl upsert pending

/-- The aggregation loop (lines 452-491): `batch_data` accumulates one
row per hour and is flushed to `execute_batch_insert` whenever it
reaches `batch_size = 100` rows; the non-empty remainder is flushed
after the loop (`if batch_data:`).  Returns the flushed batches in
order. -/
def flushBatches (batch_data : List Bucket) : List Bucket → List (List Bucket)
  | [] => if batch_data = [] then [] else [batch_data]
  | b :: rest =>
      let batch2 := batch_data ++ [b]
      if 100 ≤ batch2.length then batch2 :: flushBatches [] rest
      else flushBatches batch2 rest

/-- The batches one invocation flushes, starting from an empty
`batch_data`. -/
def chunks100 (l : List Bucket) : List (List Bucket) :=
  flushBatches [] l

/-- Result of one `aggregate_hourly_data` invocation: the committed
database, whether the call returned normally (`false` = it raised), and
how many `execute_batch_insert` calls were executed. -/
structure AggResult where
  db : DB
  ok : Bool
  writes : ℕ
deriving DecidableEq, Repr

/-- The batch loop: batches are written in order into the
transaction-local `pending` view of the hourly table; if the batch whose
index equals `failAt` fails, the `except` branch rolls the transaction
back (the committed state stays the original `db`) and the exception
propagates (`ok = false`). -/
def runBatches (db : DB) (failAt : Option ℕ) :
    List (List Bucket) → List Bucket → ℕ → AggResult
  | [], pending, i => { db := { db with hourly := pending }, ok := true, writes := i }
  | b :: rest, pending, i =>
    if failAt = some i then { db := db, ok := false, writes := i }
    else runBatches db failAt rest (execute_batch_insert pending b) (i + 1)

/-- Models `aggregate_hourly_data` (lines 417-500).  `failAt` injects a storage
failure at that batch index (`none` = no failure).  If no hour needs
aggregation the function returns early having written nothing; otherwise
the batches run inside one transaction and the single `conn.commit()` at
the end publishes the pending writes. -/
def aggregate_hourly_data (db : DB) (now : ℤ) (days : ℕ)
    (failAt : Option ℕ) : AggResult :=
  if hoursNeeded db now days = [] then { db := db, ok := true, writes := 0 }
  else runBatches db failAt (chunks100 (bucketsFor db now days)) db.hourly 0

/-- Number of batches an invocation would flush. -/
def numBatches (db : DB) (now : ℤ) (days : ℕ) : ℕ :=
  (chunks100 (bucketsFor db now days)).length

/-- The delete phase of `fetch_and_store_historical_bitcoin_data`
(lines 590-605): `DELETE FROM raw_bitcoin_prices` — no WHERE clause; the
computed `start_date` is never used.  The `days` argument is taken only
to mirror the source signature. -/
def clearRawHistory (db : DB) (_days : ℕ) : DB :=
  { db with raw := [] }

/-- Models `fetch_and_store_historical_bitcoin_data` (lines 580-689), with the
rows fetched from the API supplied as `fetched`: delete everything from
`raw_bitcoin_prices`, then insert the fetched rows. -/
def fetch_and_store_historical_bitcoin_data (db : DB) (days : ℕ)
    (fetched : List Tick) : DB :=
  let db1 := clearRawHistory db days
  { db1 with raw := db1.raw ++ fetched }

/-! ## Object-store model of the engine's pandas calls

To settle purity (the caller's DataFrame is not mutated, repeated calls
return bit-identical frames), each transform is replayed as its sequence
of Python statements over an explicit object store: a DataFrame
reference is an index into the store, `df.sort_values(...).copy()`
allocates a fresh object, and each `df[col] = ...` / `df.drop(...,
inplace=True)` mutates the object in place.  The transforms receive an
engine-contract input (a plain `(timestamp, price_usd)` frame, no
derived columns), so `sort_values` permutes only the base rows. -/

/-- A stored derived-column value. -/
inductive ColVal where
  | flCol (cells : List Fl)
  | realCol (cells : List (Option ℝ))

/-- A Python DataFrame object: base rows plus named derived columns. -/
structure DFh where
  base : List PRow
  extra : List (String × ColVal)

instance : Inhabited DFh := ⟨⟨[], []⟩⟩

/-- The Python object store; a DataFrame reference is an index. -/
abbrev Store := List DFh

/-- Dereference a DataFrame. -/
def getObj (σ : Store) (r : ℕ) : DFh := σ.getD r default

/-- Overwrite the object a reference points to (in-place mutation). -/
def setObj (σ : Store) (r : ℕ) (d : DFh) : Store := σ.set r d

/-- Models `df.sort_values("timestamp").copy()`: a fresh object whose rows are
sorted (on engine-contract inputs there are no derived columns to carry
along). -/
def sortCopy (d : DFh) : DFh := { base := sortTs d.base, extra := d.extra }

/-- Models `df[name] = cells`: add or overwrite one named column. -/
def setColV (d : DFh) (name : String) (v : ColVal) : DFh :=
  if name ∈ d.extra.map (·.1) then
    { d with extra := d.extra.map fun c => if c.1 = name then (name, v) else c }
  else { d with extra := d.extra ++ [(name, v)] }

/-- Models `df.drop(names, axis=1, inplace=True)`. -/
def dropCols (d : DFh) (names : List String) : DFh :=
  { d with extra := d.extra.filter fun c => ¬ (c.1 ∈ names) }

/-- The price column of a stored frame. -/
def objPrices (d : DFh) : List ℚ := d.base.map (·.price_usd)

/-- The frame `calculate_moving_average` leaves in its fresh object. -/
def maObj (w : ℕ) (d : DFh) : DFh :=
  let d1 := sortCopy d
  setColV d1 ("ma_" ++ toString w ++ "h")
    (ColVal.flCol (rollingMeanFl w ((objPrices d1).map Fl.fin)))

/-- Models `calculate_moving_average` as store statements: allocate the sorted
copy, then mutate it with the moving-average column; return its
reference. -/
def maHeap (w : ℕ) (σ : Store) (r : ℕ) : Store × ℕ :=
  let d := getObj σ r
  let r1 := σ.length
  let σ1 := σ ++ [sortCopy d]
  let σ2 := setObj σ1 r1 (maObj w d)
  (σ2, r1)

/-- The frame `calculate_rsi` leaves in its fresh object: the four
intermediate columns are added then dropped, the `rsi` column stays. -/
def rsiObj (w : ℕ) (d : DFh) : DFh :=
  let d1 := sortCopy d
  let xs := objPrices d1
  let d2 := setColV d1 "price_change" (ColVal.flCol (priceChangeCol xs))
  let d3 := setColV d2 "gain" (ColVal.flCol (gainCol xs))
  let d4 := setColV d3 "loss" (ColVal.flCol (lossCol xs))
  let d5 := setColV d4 "rsi" (ColVal.flCol (rsiCol xs w))
  dropCols d5 ["price_change", "gain", "loss"]

/-- Models `calculate_rsi` as store statements. -/
def rsiHeap (w : ℕ) (σ : Store) (r : ℕ) : Store × ℕ :=
  let d := getObj σ r
  let r1 := σ.length
  let σ1 := σ ++ [sortCopy d]
  let σ2 := setObj σ1 r1 (rsiObj w d)
  (σ2, r1)

/-- The frame `calculate_bollinger_bands` leaves in its fresh object. -/
noncomputable def bbObj (w : ℕ) (k : ℚ) (d : DFh) : DFh :=
  let d1 := sortCopy d
  let xs := objPrices d1
  let d2 := setColV d1 "bb_middle" (ColVal.flCol (bbMiddleCol xs w))
  let d3 := setColV d2 "bb_upper" (ColVal.realCol (bbUpperCol xs w k))
  setColV d3 "bb_lower" (ColVal.realCol (bbLowerCol xs w k))

/-- Models `calculate_bollinger_bands` as store statements. -/
noncomputable def bbHeap (w : ℕ) (k : ℚ) (σ : Store) (r : ℕ) : Store × ℕ :=
  let d := getObj σ r
  let r1 := σ.length
  let σ1 := σ ++ [sortCopy d]
  let σ2 := setObj σ1 r1 (bbObj w k d)
  (σ2, r1)

/-- The frame `calculate_macd` leaves in its fresh object: the two EMA
columns are added then dropped; `macd`, `macd_signal`, `macd_hist`
stay. -/
def macdObj (f s g : ℕ) (d : DFh) : DFh :=
  let d1 := sortCopy d
  let xs := (objPrices d1).map Fl.fin
  let ema_fast := ewmMean f xs
  let ema_slow := ewmMean s xs
  let macd := List.zipWith Fl.sub ema_fast ema_slow
  let signal := ewmMean g macd
  let d2 := setColV d1 "ema_fast" (ColVal.flCol ema_fast)
  let d3 := setColV d2 "ema_slow" (ColVal.flCol ema_slow)
  let d4 := setColV d3 "macd" (ColVal.flCol macd)
  let d5 := setColV d4 "macd_signal" (ColVal.flCol signal)
  let d6 := setColV d5 "macd_hist" (ColVal.flCol (List.zipWith Fl.sub macd signal))
  dropCols d6 ["ema_fast", "ema_slow"]

/-- Models `calculate_macd` as store statements. -/
def macdHeap (f s g : ℕ) (σ : Store) (r : ℕ) : Store × ℕ :=
  let d := getObj σ r
  let r1 := σ.length
  let σ1 := σ ++ [sortCopy d]
  let σ2 := setObj σ1 r1 (macdObj f s g d)
  (σ2, r1)

/-! ## Spec-side comparison definition for the MACD claim, and concrete
example inputs used by witnesses and the counterexample -/

/-- Tail of `specEMA`: emits the running value, then recurses with
`y ← (1-α)·y + α·x`. -/
def specEMAgo (α : ℚ) (y : ℚ) : List ℚ → List ℚ
  | [] => [y]
  | x :: xs => y :: specEMAgo α ((1 - α) * y + α * x) xs

/-- Modelled from the spec's wording (§4.2 MACD), for comparison with
the source's `ewm(span, adjust=False).mean()`: "exponential moving
average with smoothing span f (α = 2/(f+1), seeded from the first
value, no bias adjustment)", as the exact rational recurrence
`y₀ = x₀`, `yᵢ = (1-α)·yᵢ₋₁ + α·xᵢ`. -/
def specEMA (span : ℕ) : List ℚ → List ℚ
  | [] => []
  | x :: xs => specEMAgo (2 / (span + 1 : ℚ)) x xs

/-- The spec's macd series: `ema_fast - ema_slow`, pointwise, exactly. -/
def specMacd (f s : ℕ) (xs : List ℚ) : List ℚ :=
  List.zipWith (· - ·) (specEMA f xs) (specEMA s xs)

/-- The spec's signal series: EMA of the macd series with span `g`. -/
def specSignal (f s g : ℕ) (xs : List ℚ) : List ℚ :=
  specEMA g (specMacd f s xs)

/-- The spec's histogram series: `macd - signal`, pointwise, exactly. -/
def specHist (f s g : ℕ) (xs : List ℚ) : List ℚ :=
  List.zipWith (· - ·) (specMacd f s xs) (specSignal f s g xs)

/-- Database of 101 raw ticks, one per hour starting at the epoch: enough hours to
make the aggregation loop flush two batches. -/
def exDB101 : DB :=
  { raw := (List.range 101).map fun i =>
      { timestamp := (i : ℤ) * 3600, price_usd := 1, volume_usd := 1 }
    hourly := [] }

/-- Two raw ticks in one hour: a single-batch aggregation input. -/
def exDB1 : DB :=
  { raw := [{ timestamp := 0, price_usd := 1, volume_usd := 1 },
            { timestamp := 60, price_usd := 2, volume_usd := 3 }]
    hourly := [] }

/-- The spec's §8 moving-average example series `[10,20,30,40,50]`. -/
def exRamp : List PRow :=
  [⟨0, 10⟩, ⟨1, 20⟩, ⟨2, 30⟩, ⟨3, 40⟩, ⟨4, 50⟩]

/-- A strictly increasing 3-point series (RSI saturation example). -/
def exUp : List PRow := [⟨0, 1⟩, ⟨1, 2⟩, ⟨2, 3⟩]

/-- A constant 2-point series (RSI 0/0 example). -/
def exFlat : List PRow := [⟨0, 5⟩, ⟨1, 5⟩]

/-- A 3-point series whose 3-point rolling sample variance is 1. -/
def exBB : List PRow := [⟨0, 0⟩, ⟨1, 1⟩, ⟨2, 2⟩]

/-- The spec's §8 OHLC example: ticks at 10:00 price 100, 10:20 price
110, 10:40 price 90 (volumes 5, 6, 7). -/
def exHourTicks : List Tick :=
  [⟨36000, 100, 5⟩, ⟨37200, 110, 6⟩, ⟨38400, 90, 7⟩]

/-- A one-object store holding a two-row unsorted input frame. -/
def exStore : Store := [⟨[⟨1, 2⟩, ⟨0, 1⟩], []⟩]

/-- Purity of one store-level transform at its interface, as the spec
words it: on an engine-contract input (a frame with no derived columns),
the call leaves the caller's frame untouched, a second call leaves it
untouched too, and the second call's output frame is bit-identical to
the first call's output frame. -/
def TransformPure (T : Store → ℕ → Store × ℕ) : Prop :=
  ∀ (σ : Store) (r : ℕ), r < σ.length → (getObj σ r).extra = [] →
    getObj (T σ r).1 r = getObj σ r ∧
    getObj (T (T σ r).1 r).1 r = getObj σ r ∧
    getObj (T (T σ r).1 r).1 (T (T σ r).1 r).2 = getObj (T σ r).1 (T σ r).2

/-! ## Claims -/

/-- C9: for every requested number of days, the historical backfill
deletes all existing raw tick rows unconditionally — the delete phase
empties `raw_bitcoin_prices` whatever `days` is (rows outside the
requested range included), the result holds exactly the fetched rows,
and the outcome does not depend on `days` at all. -/
theorem C9_backfill_deletes_all_raw (db : DB) (d1 d2 : ℕ)
    (fetched : List Tick) :
    (clearRawHistory db d1).raw = [] ∧
    (fetch_and_store_historical_bitcoin_data db d1 fetched).raw = fetched ∧
    fetch_and_store_historical_bitcoin_data db d1 fetched
      = fetch_and_store_historical_bitcoin_data db d2 fetched :=
  ⟨rfl, rfl, rfl⟩

/-- C2: wherever the rolling average loss is exactly 0 and the rolling
average gain is strictly positive, the RSI column holds exactly 100
(finite, not NaN/Inf): `rs` saturates to `+inf` and
`100 - 100/(1 + inf) = 100`. -/
theorem C2_rsi_saturates_at_100 (df : List PRow) (w i : ℕ) (g : ℚ)
    (hg : (avgGainCol (sortedPrices df) w)[i]? = some (Fl.fin g))
    (hl : (avgLossCol (sortedPrices df) w)[i]? = some (Fl.fin 0))
    (hpos : 0 < g) :
    (calculate_rsi df w).rsi[i]? = some (Fl.fin 100) := by
  show (rsiCol (sortedPrices df) w)[i]? = _
  rw [rsiCol, List.getElem?_map, rsCol, List.getElem?_zipWith, hg, hl]
  simp [Fl.div, Fl.add, Fl.sub, Fl.neg, hpos.ne', hpos]

/-- C2 witness: on the rising series `[1,2,3]` with window 2, at index 1
the average loss is 0 and the average gain is 1/2, and the RSI is
exactly 100. -/
theorem C2_rsi_saturates_at_100_witness :
    (avgGainCol (sortedPrices exUp) 2)[1]? = some (Fl.fin (1 / 2)) ∧
    (avgLossCol (sortedPrices exUp) 2)[1]? = some (Fl.fin 0) ∧
    (0 : ℚ) < 1 / 2 ∧
    (calculate_rsi exUp 2).rsi[1]? = some (Fl.fin 100) :=
  ⟨by norm_num [avgGainCol, rollingMeanFl, gainCol, priceChangeCol,
      sortedPrices, sortTs, exUp, flSum, Fl.add, Fl.div, Fl.gt0,
      List.insertionSort, List.orderedInsert, List.range_succ],
    by norm_num [avgLossCol, rollingMeanFl, lossCol, priceChangeCol,
      sortedPrices, sortTs, exUp, flSum, Fl.add, Fl.div, Fl.lt0, Fl.fabs,
      List.insertionSort, List.orderedInsert, List.range_succ],
    by norm_num,
    C2_rsi_saturates_at_100 exUp 2 1 (1 / 2)
      (by norm_num [avgGainCol, rollingMeanFl, gainCol, priceChangeCol,
        sortedPrices, sortTs, exUp, flSum, Fl.add, Fl.div, Fl.gt0,
        List.insertionSort, List.orderedInsert, List.range_succ])
      (by norm_num [avgLossCol, rollingMeanFl, lossCol, priceChangeCol,
        sortedPrices, sortTs, exUp, flSum, Fl.add, Fl.div, Fl.lt0, Fl.fabs,
        List.insertionSort, List.orderedInsert, List.range_succ])
      (by norm_num)⟩

/-- C10: wherever the RSI window contains only zero deltas — both the
rolling average gain and the rolling average loss are exactly 0 — the
RSI cell is NaN (`0/0` propagated through the formula), not 100 and not
an error. -/
theorem C10_rsi_nan_on_zero_window (df : List PRow) (w i : ℕ)
    (hg : (avgGainCol (sortedPrices df) w)[i]? = some (Fl.fin 0))
    (hl : (avgLossCol (sortedPrices df) w)[i]? = some (Fl.fin 0)) :
    (calculate_rsi df w).rsi[i]? = some Fl.nan := by
  show (rsiCol (sortedPrices df) w)[i]? = _
  rw [rsiCol, List.getElem?_map, rsCol, List.getElem?_zipWith, hg, hl]
  simp [Fl.div, Fl.add, Fl.sub, Fl.neg]

/-- C10 witness: on the constant series `[5,5]` with window 2, index 1
has average gain and loss both 0, and the RSI cell is NaN. -/
theorem C10_rsi_nan_on_zero_window_witness :
    (avgGainCol (sortedPrices exFlat) 2)[1]? = some (Fl.fin 0) ∧
    (avgLossCol (sortedPrices exFlat) 2)[1]? = some (Fl.fin 0) ∧
    (calculate_rsi exFlat 2).rsi[1]? = some Fl.nan :=
  ⟨by norm_num [avgGainCol, rollingMeanFl, gainCol, priceChangeCol,
      sortedPrices, sortTs, exFlat, flSum, Fl.add, Fl.div, Fl.gt0,
      List.insertionSort, List.orderedInsert, List.range_succ],
    by norm_num [avgLossCol, rollingMeanFl, lossCol, priceChangeCol,
      sortedPrices, sortTs, exFlat, flSum, Fl.add, Fl.div, Fl.lt0, Fl.fabs,
      List.insertionSort, List.orderedInsert, List.range_succ],
    C10_rsi_nan_on_zero_window exFlat 2 1
      (by norm_num [avgGainCol, rollingMeanFl, gainCol, priceChangeCol,
        sortedPrices, sortTs, exFlat, flSum, Fl.add, Fl.div, Fl.gt0,
        List.insertionSort, List.orderedInsert, List.range_succ])
      (by norm_num [avgLossCol, rollingMeanFl, lossCol, priceChangeCol,
        sortedPrices, sortTs, exFlat, flSum, Fl.add, Fl.div, Fl.lt0, Fl.fabs,
        List.insertionSort, List.orderedInsert, List.range_succ])⟩

/-! ### Moving average (C3) -/

theorem Fl.div_fin_fin {b : ℚ} (a : ℚ) (hb : b ≠ 0) :
    Fl.div (Fl.fin a) (Fl.fin b) = Fl.fin (a / b) := by
  simp [Fl.div, hb]

theorem foldl_add_map_fin (l : List ℚ) (q : ℚ) :
    (l.map Fl.fin).foldl Fl.add (Fl.fin q) = Fl.fin (q + l.sum) := by
  induction l generalizing q with
  | nil => simp
  | cons x xs ih => simp [Fl.add, ih, add_assoc]

theorem flSum_map_fin (l : List ℚ) : flSum (l.map Fl.fin) = Fl.fin l.sum := by
  simpa [flSum] using foldl_add_map_fin l 0

theorem sortedPrices_length (df : List PRow) :
    (sortedPrices df).length = df.length := by
  simp [sortedPrices, sortTs, (List.perm_insertionSort _ df).length_eq]

theorem rollingMeanFl_getElem? {i : ℕ} (w : ℕ) (xs : List Fl)
    (h : i < xs.length) :
    (rollingMeanFl w xs)[i]? =
      some (if w ≤ i + 1 then
        Fl.div (flSum ((xs.drop (i + 1 - w)).take w)) (Fl.fin w)
      else Fl.nan) := by
  simp [rollingMeanFl, List.getElem?_range h]

theorem rollingMeanFl_map_fin_getElem? {i : ℕ} (w : ℕ) (xs : List ℚ)
    (hw : 1 ≤ w) (h : i < xs.length) :
    (rollingMeanFl w (xs.map Fl.fin))[i]? =
      some (if w ≤ i + 1 then
        Fl.fin (((xs.drop (i + 1 - w)).take w).sum / w)
      else Fl.nan) := by
  rw [rollingMeanFl_getElem? w _ (by simpa using h)]
  rw [← List.map_drop, ← List.map_take, flSum_map_fin]
  by_cases hc : w ≤ i + 1
  · simp only [hc, if_true]
    rw [Fl.div_fin_fin _ (Nat.cast_ne_zero.mpr (by omega))]
  · simp [hc]

theorem countP_range_window (w n : ℕ) :
    (List.range n).countP (fun i => decide (w ≤ i + 1)) = n - (w - 1) := by
  induction n with
  | zero => simp
  | succ n ih =>
    rw [List.range_succ, List.countP_append, ih]
    by_cases h : w ≤ n + 1 <;> simp [h, List.countP_cons] <;> omega

/-- C3: for window `w ≥ 1`, the moving-average column has one cell per
input row; exactly `max(0, n-w+1) = n - (w-1)` of them are defined; a
defined cell at index `i` implies `i ≥ w-1` and holds the arithmetic
mean of the `w` sorted prices ending at `i` (stated multiplicatively:
`m·w` is the sum of a window of length exactly `w`); and every index
`i ≥ w-1` is defined with that mean. -/
theorem C3_moving_average_window_count (df : List PRow) (w : ℕ) (hw : 1 ≤ w) :
    (calculate_moving_average df w).ma.length = df.length ∧
    (calculate_moving_average df w).ma.countP Fl.isFin = df.length - (w - 1) ∧
    (∀ i m, (calculate_moving_average df w).ma[i]? = some (Fl.fin m) →
      w - 1 ≤ i ∧
      (((sortedPrices df).drop (i + 1 - w)).take w).length = w ∧
      m * w = (((sortedPrices df).drop (i + 1 - w)).take w).sum) ∧
    (∀ i, i < df.length → w - 1 ≤ i →
      (calculate_moving_average df w).ma[i]? =
        some (Fl.fin ((((sortedPrices df).drop (i + 1 - w)).take w).sum / w))) := by
  have hma : (calculate_moving_average df w).ma
      = rollingMeanFl w ((sortedPrices df).map Fl.fin) := rfl
  have hwq : ((w : ℚ)) ≠ 0 := Nat.cast_ne_zero.mpr (by omega)
  have hlen : ((sortedPrices df).map Fl.fin).length = df.length := by
    simp [sortedPrices_length]
  have hmalen : (calculate_moving_average df w).ma.length = df.length := by
    rw [hma]; simp [rollingMeanFl, hlen]
  refine ⟨hmalen, ?_, ?_, ?_⟩
  · rw [hma, rollingMeanFl, List.countP_map, hlen]
    rw [List.countP_congr (q := fun i => decide (w ≤ i + 1)) ?_]
    · exact countP_range_window w df.length
    · intro i _
      by_cases hc : w ≤ i + 1
      · simp only [Function.comp_apply, hc, if_true, decide_eq_true_eq]
        rw [← List.map_drop, ← List.map_take, flSum_map_fin,
          Fl.div_fin_fin _ hwq]
        simp [Fl.isFin, hc]
      · simp [Function.comp_apply, hc, Fl.isFin]
  · intro i m hm
    have hi : i < df.length := hmalen ▸ (List.getElem?_eq_some_iff.mp hm).1
    rw [hma, rollingMeanFl_map_fin_getElem? w _ hw
      (by rw [sortedPrices_length]; exact hi)] at hm
    by_cases hc : w ≤ i + 1
    · simp only [hc, if_true, Option.some.injEq, Fl.fin.injEq] at hm
      refine ⟨by omega, ?_, ?_⟩
      · rw [List.length_take, List.length_drop, sortedPrices_length]; omega
      · rw [← hm, div_mul_cancel₀ _ hwq]
    · simp [hc] at hm
  · intro i hi hwi
    rw [hma, rollingMeanFl_map_fin_getElem? w _ hw
      (by rw [sortedPrices_length]; exact hi)]
    simp [show w ≤ i + 1 by omega]

/-- C3 witness: the spec's §8 example — `[10,20,30,40,50]` with window
3 has exactly 3 defined cells and the cell at index 2 equals
`mean(10,20,30) = 20`. -/
theorem C3_moving_average_window_count_witness :
    (calculate_moving_average exRamp 3).ma.countP Fl.isFin = 3 ∧
    (calculate_moving_average exRamp 3).ma[2]? = some (Fl.fin 20) := by
  have h := C3_moving_average_window_count exRamp 3 (by norm_num)
  constructor
  · rw [h.2.1]; rfl
  · rw [h.2.2.2 2 (by norm_num [exRamp]) (by norm_num)]
    norm_num [sortedPrices, sortTs, exRamp, List.insertionSort,
      List.orderedInsert]

/-! ### Bollinger bands (C7) -/

/-- C7: wherever the middle band, upper band and lower band are all
defined, `lower ≤ middle ≤ upper` holds, for every window and every
`num_std = k ≥ 0`: the bands are the middle shifted by the non-negative
quantity `std·k`. -/
theorem C7_bollinger_bands_ordered (df : List PRow) (w : ℕ) (k : ℚ)
    (i : ℕ) (hk : 0 ≤ k) (m : ℚ) (u l : ℝ)
    (hm : (calculate_bollinger_bands df w k).bb_middle[i]? = some (Fl.fin m))
    (hu : (calculate_bollinger_bands df w k).bb_upper[i]? = some (some u))
    (hl : (calculate_bollinger_bands df w k).bb_lower[i]? = some (some l)) :
    l ≤ (m : ℝ) ∧ (m : ℝ) ≤ u := by
  have hmid : (calculate_bollinger_bands df w k).bb_middle
      = bbMiddleCol (sortedPrices df) w := rfl
  have hup : (calculate_bollinger_bands df w k).bb_upper
      = bbUpperCol (sortedPrices df) w k := rfl
  have hlo : (calculate_bollinger_bands df w k).bb_lower
      = bbLowerCol (sortedPrices df) w k := rfl
  rw [hup, bbUpperCol, List.getElem?_zipWith] at hu
  rw [hlo, bbLowerCol, List.getElem?_zipWith] at hl
  rw [hmid] at hm
  rw [hm] at hu hl
  cases hvar : (rollingVarQ w (sortedPrices df))[i]? with
  | none => rw [hvar] at hu; simp at hu
  | some v =>
    rw [hvar] at hu hl
    cases v with
    | none => simp at hu
    | some vq =>
      simp only [Option.some.injEq] at hu hl
      have hs : (0 : ℝ) ≤ Real.sqrt (vq : ℝ) * (k : ℝ) :=
        mul_nonneg (Real.sqrt_nonneg _) (by exact_mod_cast hk)
      constructor
      · rw [← hl]; linarith
      · rw [← hu]; linarith

/-- C7 witness: for `[0,1,2]`, window 3, `k = 2`, the bands at index 2
are `middle = 1`, `upper = 1 + √1·2 = 3`, `lower = -1`, and the order
`lower ≤ middle ≤ upper` holds there. -/
theorem C7_bollinger_bands_ordered_witness :
    (0 : ℚ) ≤ 2 ∧
    (calculate_bollinger_bands exBB 3 2).bb_middle[2]? = some (Fl.fin 1) ∧
    (calculate_bollinger_bands exBB 3 2).bb_upper[2]? = some (some (3 : ℝ)) ∧
    (calculate_bollinger_bands exBB 3 2).bb_lower[2]? = some (some ((-1) : ℝ)) ∧
    ((-1 : ℝ) ≤ ((1 : ℚ) : ℝ) ∧ ((1 : ℚ) : ℝ) ≤ 3) := by
  have hm : (calculate_bollinger_bands exBB 3 2).bb_middle[2]?
      = some (Fl.fin 1) := by
    show (bbMiddleCol (sortedPrices exBB) 3)[2]? = _
    norm_num [bbMiddleCol, rollingMeanFl, sortedPrices, sortTs, exBB, flSum,
      Fl.add, Fl.div, List.insertionSort, List.orderedInsert, List.range_succ]
  have hu : (calculate_bollinger_bands exBB 3 2).bb_upper[2]?
      = some (some (3 : ℝ)) := by
    show (bbUpperCol (sortedPrices exBB) 3 2)[2]? = _
    norm_num [bbUpperCol, bbMiddleCol, rollingMeanFl, rollingVarQ,
      sortedPrices, sortTs, exBB, flSum, Fl.add, Fl.div, List.insertionSort,
      List.orderedInsert, List.range_succ, List.zipWith, Real.sqrt_one]
  have hl : (calculate_bollinger_bands exBB 3 2).bb_lower[2]?
      = some (some ((-1) : ℝ)) := by
    show (bbLowerCol (sortedPrices exBB) 3 2)[2]? = _
    norm_num [bbLowerCol, bbMiddleCol, rollingMeanFl, rollingVarQ,
      sortedPrices, sortTs, exBB, flSum, Fl.add, Fl.div, List.insertionSort,
      List.orderedInsert, List.range_succ, List.zipWith, Real.sqrt_one]
  exact ⟨by norm_num, hm, hu, hl,
    C7_bollinger_bands_ordered exBB 3 2 2 (by norm_num) 1 3 (-1) hm hu hl⟩

/-! ### MACD (C6) -/

theorem Fl.sub_fin_fin (a b : ℚ) :
    Fl.sub (Fl.fin a) (Fl.fin b) = Fl.fin (a - b) := by
  simp [Fl.sub, Fl.add, Fl.neg, sub_eq_add_neg]

theorem ewmGo_map_fin (α : ℚ) (y : ℚ) (l : List ℚ) :
    ewmGo α (Fl.fin y) (l.map Fl.fin) = (specEMAgo α y l).map Fl.fin := by
  induction l generalizing y with
  | nil => rfl
  | cons x xs ih => simp [ewmGo, specEMAgo, Fl.mul, Fl.add, ih]

theorem ewmMean_map_fin (span : ℕ) (xs : List ℚ) :
    ewmMean span (xs.map Fl.fin) = (specEMA span xs).map Fl.fin := by
  cases xs with
  | nil => rfl
  | cons x rest => simp [ewmMean, specEMA, ewmGo_map_fin]

theorem zipWith_sub_map_fin (a b : List ℚ) :
    List.zipWith Fl.sub (a.map Fl.fin) (b.map Fl.fin)
      = (List.zipWith (· - ·) a b).map Fl.fin := by
  induction a generalizing b with
  | nil => simp
  | cons x xs ih =>
    cases b with
    | nil => simp
    | cons y ys => simp [Fl.sub_fin_fin, ih]

theorem specEMAgo_length (α : ℚ) (y : ℚ) (l : List ℚ) :
    (specEMAgo α y l).length = l.length + 1 := by
  induction l generalizing y with
  | nil => rfl
  | cons x xs ih => simp [specEMAgo, ih]

theorem specEMA_length (span : ℕ) (xs : List ℚ) :
    (specEMA span xs).length = xs.length := by
  cases xs with
  | nil => rfl
  | cons x rest => simp [specEMA, specEMAgo_length]

theorem specMacd_length (f s : ℕ) (xs : List ℚ) :
    (specMacd f s xs).length = xs.length := by
  simp [specMacd, specEMA_length]

/-- C6: for a non-empty series, the `macd`, `macd_signal` and
`macd_hist` columns are exactly the image under `Fl.fin` of the
spec-side exact rational recurrences (`α = 2/(span+1)`, seeded from the
first value, no bias adjustment), so all three columns have one cell
per input row and every cell is finite — no undefined head. -/
theorem C6_macd_fully_defined (df : List PRow) (f s g : ℕ)
    (hdf : df ≠ []) :
    (calculate_macd df f s g).macd
      = (specMacd f s (sortedPrices df)).map Fl.fin ∧
    (calculate_macd df f s g).macd_signal
      = (specSignal f s g (sortedPrices df)).map Fl.fin ∧
    (calculate_macd df f s g).macd_hist
      = (specHist f s g (sortedPrices df)).map Fl.fin ∧
    (calculate_macd df f s g).macd.length = df.length ∧
    (calculate_macd df f s g).macd_signal.length = df.length ∧
    (calculate_macd df f s g).macd_hist.length = df.length ∧
    (∀ i, i < df.length →
      (calculate_macd df f s g).macd[i]?.map Fl.isFin = some true ∧
      (calculate_macd df f s g).macd_signal[i]?.map Fl.isFin = some true ∧
      (calculate_macd df f s g).macd_hist[i]?.map Fl.isFin = some true) := by
  have hps : ((sortedPrices df)).length = df.length := sortedPrices_length df
  have hmacd : (calculate_macd df f s g).macd
      = (specMacd f s (sortedPrices df)).map Fl.fin := by
    show List.zipWith Fl.sub (ewmMean f ((sortedPrices df).map Fl.fin))
        (ewmMean s ((sortedPrices df).map Fl.fin)) = _
    rw [ewmMean_map_fin, ewmMean_map_fin, zipWith_sub_map_fin]
    rfl
  have hsig : (calculate_macd df f s g).macd_signal
      = (specSignal f s g (sortedPrices df)).map Fl.fin := by
    show ewmMean g (List.zipWith Fl.sub
        (ewmMean f ((sortedPrices df).map Fl.fin))
        (ewmMean s ((sortedPrices df).map Fl.fin))) = _
    rw [ewmMean_map_fin, ewmMean_map_fin, zipWith_sub_map_fin]
    show ewmMean g ((specMacd f s (sortedPrices df)).map Fl.fin) = _
    rw [ewmMean_map_fin]
    rfl
  have hhist : (calculate_macd df f s g).macd_hist
      = (specHist f s g (sortedPrices df)).map Fl.fin := by
    show List.zipWith Fl.sub (calculate_macd df f s g).macd
        (calculate_macd df f s g).macd_signal = _
    rw [hmacd, hsig, zipWith_sub_map_fin]
    rfl
  have hlm : (calculate_macd df f s g).macd.length = df.length := by
    rw [hmacd]; simp [specMacd_length, hps]
  have hls : (calculate_macd df f s g).macd_signal.length = df.length := by
    rw [hsig]; simp [specSignal, specEMA_length, specMacd_length, hps]
  have hlh : (calculate_macd df f s g).macd_hist.length = df.length := by
    rw [hhist]
    simp [specHist, specSignal, specEMA_length, specMacd_length, hps]
  refine ⟨hmacd, hsig, hhist, hlm, hls, hlh, ?_⟩
  intro i hi
  refine ⟨?_, ?_, ?_⟩
  · rw [hmacd]
    have hi2 : i < (specMacd f s (sortedPrices df)).length := by
      rw [specMacd_length, hps]; exact hi
    rw [List.getElem?_map, List.getElem?_eq_getElem hi2]
    simp [Fl.isFin]
  · rw [hsig]
    have hi2 : i < (specSignal f s g (sortedPrices df)).length := by
      rw [specSignal, specEMA_length, specMacd_length, hps]; exact hi
    rw [List.getElem?_map, List.getElem?_eq_getElem hi2]
    simp [Fl.isFin]
  · rw [hhist]
    have hi2 : i < (specHist f s g (sortedPrices df)).length := by
      rw [specHist] 
      simp only [List.length_zipWith, specSignal, specEMA_length,
        specMacd_length, hps]
      omega
    rw [List.getElem?_map, List.getElem?_eq_getElem hi2]
    simp [Fl.isFin]

/-- C6 witness: on the 3-point series with the source's default spans
(12, 26, 9), all three MACD columns are defined already at index 0. -/
theorem C6_macd_fully_defined_witness :
    exUp ≠ [] ∧
    (calculate_macd exUp 12 26 9).macd[0]?.map Fl.isFin = some true ∧
    (calculate_macd exUp 12 26 9).macd_signal[0]?.map Fl.isFin = some true ∧
    (calculate_macd exUp 12 26 9).macd_hist[0]?.map Fl.isFin = some true := by
  have h := C6_macd_fully_defined exUp 12 26 9 (by simp [exUp])
  have h0 := h.2.2.2.2.2.2 0 (by simp [exUp])
  exact ⟨by simp [exUp], h0.1, h0.2.1, h0.2.2⟩

/-! ### Aggregator OHLC (C4) -/

theorem le_qMax_init (x : ℚ) (l : List ℚ) : x ≤ qMax x l := by
  induction l generalizing x with
  | nil => exact le_refl x
  | cons a t ih => exact le_trans (le_max_left x a) (ih (max x a))

theorem le_qMax_mem {y : ℚ} (x : ℚ) {l : List ℚ} (h : y ∈ l) :
    y ≤ qMax x l := by
  induction l generalizing x with
  | nil => cases h
  | cons a t ih =>
    rcases List.mem_cons.mp h with rfl | hmem
    · exact le_trans (le_max_right x y) (le_qMax_init (max x y) t)
    · exact ih (max x a) hmem

theorem qMax_mem (x : ℚ) (l : List ℚ) : qMax x l = x ∨ qMax x l ∈ l := by
  induction l generalizing x with
  | nil => exact Or.inl rfl
  | cons a t ih =>
    show qMax (max x a) t = x ∨ qMax (max x a) t ∈ a :: t
    rcases ih (max x a) with h | h
    · rcases max_choice x a with hm | hm
      · rw [h, hm]; exact Or.inl rfl
      · rw [h, hm]; exact Or.inr (List.mem_cons_self a t)
    · exact Or.inr (List.mem_cons_of_mem a h)

theorem qMin_le_init (x : ℚ) (l : List ℚ) : qMin x l ≤ x := by
  induction l generalizing x with
  | nil => exact le_refl x
  | cons a t ih => exact le_trans (ih (min x a)) (min_le_left x a)

theorem qMin_le_mem {y : ℚ} (x : ℚ) {l : List ℚ} (h : y ∈ l) :
    qMin x l ≤ y := by
  induction l generalizing x with
  | nil => cases h
  | cons a t ih =>
    rcases List.mem_cons.mp h with rfl | hmem
    · exact le_trans (qMin_le_init (min x y) t) (min_le_right x y)
    · exact ih (min x a) hmem

theorem qMin_mem (x : ℚ) (l : List ℚ) : qMin x l = x ∨ qMin x l ∈ l := by
  induction l generalizing x with
  | nil => exact Or.inl rfl
  | cons a t ih =>
    show qMin (min x a) t = x ∨ qMin (min x a) t ∈ a :: t
    rcases ih (min x a) with h | h
    · rcases min_choice x a with hm | hm
      · rw [h, hm]; exact Or.inl rfl
      · rw [h, hm]; exact Or.inr (List.mem_cons_self a t)
    · exact Or.inr (List.mem_cons_of_mem a h)

theorem sorted_ts_le_getLast? {l : List Tick}
    (hs : l.Sorted fun a b => a.timestamp ≤ b.timestamp) {z : Tick}
    (hz : l.getLast? = some z) : ∀ x ∈ l, x.timestamp ≤ z.timestamp := by
  induction l with
  | nil => simp at hz
  | cons a t ih =>
    intro x hx
    cases t with
    | nil =>
      simp at hz
      rcases List.mem_singleton.mp hx with rfl
      rw [hz]
    | cons b t2 =>
      rw [List.getLast?_cons_cons] at hz
      have hzmem : z ∈ b :: t2 := by
        have hne : (b :: t2) ≠ [] := by simp
        rw [List.getLast?_eq_getLast _ hne] at hz
        exact (Option.some.injEq _ _ ▸ hz) ▸ List.getLast_mem hne
      rcases List.mem_cons.mp hx with rfl | hmem
      · exact List.rel_of_pairwise_cons hs hzmem
      · exact ih hs.of_cons hz x hmem

/-- C4: the bucket the aggregator computes for one hour from the raw
rows of that hour: its open is the price of an earliest tick, its close
the price of a latest tick, its high/low are prices attained in the
group bounding every group price, and its volume times the group size is
the sum of the group's volumes (i.e. volume is the arithmetic mean, not
the sum). -/
theorem C4_ohlc_bucket_correct (db : DB) (hour : ℤ)
    (hne : db.raw.filter
      (fun t => hour ≤ t.timestamp ∧ t.timestamp < hour + 3600) ≠ []) :
    (∃ t ∈ db.raw.filter
        (fun t => hour ≤ t.timestamp ∧ t.timestamp < hour + 3600),
      (mkBucket hour (hourRows db hour)).open_price_usd = t.price_usd ∧
      ∀ u ∈ db.raw.filter
          (fun t => hour ≤ t.timestamp ∧ t.timestamp < hour + 3600),
        t.timestamp ≤ u.timestamp) ∧
    (∃ t ∈ db.raw.filter
        (fun t => hour ≤ t.timestamp ∧ t.timestamp < hour + 3600),
      (mkBucket hour (hourRows db hour)).close_price_usd = t.price_usd ∧
      ∀ u ∈ db.raw.filter
          (fun t => hour ≤ t.timestamp ∧ t.timestamp < hour + 3600),
        u.timestamp ≤ t.timestamp) ∧
    ((mkBucket hour (hourRows db hour)).high_price_usd ∈
      (db.raw.filter
        (fun t => hour ≤ t.timestamp ∧ t.timestamp < hour + 3600)).map
          (·.price_usd) ∧
      ∀ u ∈ db.raw.filter
          (fun t => hour ≤ t.timestamp ∧ t.timestamp < hour + 3600),
        u.price_usd ≤ (mkBucket hour (hourRows db hour)).high_price_usd) ∧
    ((mkBucket hour (hourRows db hour)).low_price_usd ∈
      (db.raw.filter
        (fun t => hour ≤ t.timestamp ∧ t.timestamp < hour + 3600)).map
          (·.price_usd) ∧
      ∀ u ∈ db.raw.filter
          (fun t => hour ≤ t.timestamp ∧ t.timestamp < hour + 3600),
        (mkBucket hour (hourRows db hour)).low_price_usd ≤ u.price_usd) ∧
    (mkBucket hour (hourRows db hour)).volume_usd *
        ((db.raw.filter
          (fun t => hour ≤ t.timestamp ∧ t.timestamp < hour + 3600)).length)
      = ((db.raw.filter
          (fun t => hour ≤ t.timestamp ∧ t.timestamp < hour + 3600)).map
            (·.volume_usd)).sum := by
  haveI hTot : IsTotal Tick (fun a b => a.timestamp ≤ b.timestamp) :=
    ⟨fun a b => Int.le_total _ _⟩
  haveI hTrans : IsTrans Tick (fun a b => a.timestamp ≤ b.timestamp) :=
    ⟨fun _ _ _ h1 h2 => le_trans h1 h2⟩
  set grp := db.raw.filter
    (fun t => hour ≤ t.timestamp ∧ t.timestamp < hour + 3600) with hgrp
  have hperm : (hourRows db hour).Perm grp := List.perm_insertionSort _ _
  have hsorted : (hourRows db hour).Sorted
      (fun a b => a.timestamp ≤ b.timestamp) := List.sorted_insertionSort _ _
  have hrne : hourRows db hour ≠ [] := by
    intro hc
    exact hne (List.Perm.nil_eq (hc ▸ hperm) |>.symm)
  cases hr : hourRows db hour with
  | nil => exact absurd hr hrne
  | cons r rest =>
    rw [hr] at hperm hsorted
    have hmemgrp : ∀ x ∈ r :: rest, x ∈ grp := fun x hx => hperm.mem_iff.mp hx
    have hgrpmem : ∀ x ∈ grp, x ∈ r :: rest := fun x hx => hperm.mem_iff.mpr hx
    have hpricesperm : ((r :: rest).map (·.price_usd)).Perm
        (grp.map (·.price_usd)) := hperm.map _
    have hopen : (mkBucket hour (r :: rest)).open_price_usd = r.price_usd := rfl
    refine ⟨?_, ?_, ?_, ?_, ?_⟩
    · -- open = price of an earliest tick
      refine ⟨r, hmemgrp r (List.mem_cons_self r rest), hopen, ?_⟩
      intro u hu
      rcases List.mem_cons.mp (hgrpmem u hu) with rfl | hmem
      · exact le_refl _
      · exact List.rel_of_pairwise_cons hsorted hmem
    · -- close = price of a latest tick
      have hlastne : (r :: rest) ≠ [] := by simp
      set z := (r :: rest).getLast hlastne with hz
      have hz? : (r :: rest).getLast? = some z :=
        List.getLast?_eq_getLast _ hlastne
      have hclose : (mkBucket hour (r :: rest)).close_price_usd = z.price_usd := by
        show ((r :: rest).map (·.price_usd)).getLastD 0 = z.price_usd
        rw [List.getLastD_eq_getLast?, List.getLast?_map, hz?]
        rfl
      refine ⟨z, hmemgrp z (List.getLast_mem hlastne), hclose, ?_⟩
      intro u hu
      exact sorted_ts_le_getLast? hsorted hz? u (hgrpmem u hu)
    · -- high bounds and is attained
      have hhigh : (mkBucket hour (r :: rest)).high_price_usd
          = qMax r.price_usd ((r :: rest).map (·.price_usd)) := rfl
      constructor
      · rw [hhigh]
        rcases qMax_mem r.price_usd ((r :: rest).map (·.price_usd)) with h | h
        · rw [h]
          exact hpricesperm.mem_iff.mp
            (List.mem_map_of_mem _ (List.mem_cons_self r rest))
        · exact hpricesperm.mem_iff.mp h
      · intro u hu
        rw [hhigh]
        exact le_qMax_mem _
          (hpricesperm.mem_iff.mpr (List.mem_map_of_mem _ hu))
    · -- low bounds and is attained
      have hlow : (mkBucket hour (r :: rest)).low_price_usd
          = qMin r.price_usd ((r :: rest).map (·.price_usd)) := rfl
      constructor
      · rw [hlow]
        rcases qMin_mem r.price_usd ((r :: rest).map (·.price_usd)) with h | h
        · rw [h]
          exact hpricesperm.mem_iff.mp
            (List.mem_map_of_mem _ (List.mem_cons_self r rest))
        · exact hpricesperm.mem_iff.mp h
      · intro u hu
        rw [hlow]
        exact qMin_le_mem _
          (hpricesperm.mem_iff.mpr (List.mem_map_of_mem _ hu))
    · -- volume · |grp| = Σ volumes
      have hvol : (mkBucket hour (r :: rest)).volume_usd
          = ((r :: rest).map (·.volume_usd)).sum / ((r :: rest).length : ℚ) :=
        rfl
      have hlen : (r :: rest).length = grp.length := hperm.length_eq
      have hsum : ((r :: rest).map (·.volume_usd)).sum
          = (grp.map (·.volume_usd)).sum := (hperm.map _).sum_eq
      have hlq : ((grp.length : ℚ)) ≠ 0 := by
        have : grp.length ≠ 0 := by
          intro hc
          exact hne (List.length_eq_zero.mp hc)
        exact_mod_cast this
      rw [hvol, hlen, hsum, div_mul_cancel₀ _ hlq]

/-- C4 witness: the spec's §8 example — ticks at 10:00 price 100, 10:20
price 110, 10:40 price 90 in the 10:00 hour give
open 100, high 110, low 90, close 90, and volume `(5+6+7)/3 = 6`
(the mean, not the sum 18); the high bounds every group price. -/
theorem C4_ohlc_bucket_correct_witness :
    mkBucket 36000 (hourRows ⟨exHourTicks, []⟩ 36000)
      = ⟨36000, 100, 110, 90, 90, 6⟩ ∧
    ∀ u ∈ (⟨exHourTicks, []⟩ : DB).raw.filter
        (fun t => 36000 ≤ t.timestamp ∧ t.timestamp < 36000 + 3600),
      u.price_usd ≤ (mkBucket 36000 (hourRows ⟨exHourTicks, []⟩ 36000)).high_price_usd := by
  constructor
  · norm_num [mkBucket, hourRows, exHourTicks, qMax, qMin,
      List.insertionSort, List.orderedInsert]
  · exact (C4_ohlc_bucket_correct ⟨exHourTicks, []⟩ 36000
      (by norm_num [exHourTicks]; exact List.cons_ne_nil _ _)).2.2.1.2

/-! ### Aggregator failure semantics (C1) -/

theorem runBatches_fail (db : DB) (k : ℕ) :
    ∀ (bs : List (List Bucket)) (pending : List Bucket) (i : ℕ),
      i ≤ k → k < i + bs.length →
      runBatches db (some k) bs pending i = ⟨db, false, k⟩ := by
  intro bs
  induction bs with
  | nil => intro pending i h1 h2; simp at h2; omega
  | cons b rest ih =>
    intro pending i h1 h2
    by_cases hk : k = i
    · subst hk
      simp [runBatches]
    · rw [runBatches, if_neg (by simpa using fun hc => hk hc)]
      exact ih _ (i + 1) (by omega) (by simp at h2 ⊢; omega)

theorem runBatches_none (db : DB) :
    ∀ (bs : List (List Bucket)) (pending : List Bucket) (i : ℕ),
      runBatches db none bs pending i =
        ⟨{ db with hourly := bs.foldl execute_batch_insert pending },
          true, i + bs.length⟩ := by
  intro bs
  induction bs with
  | nil => intro pending i; simp [runBatches]
  | cons b rest ih =>
    intro pending i
    rw [runBatches, if_neg (by simp)]
    rw [ih]
    simp
    omega

/-- C1 (amended): an injected failure at any batch index `k` that the
invocation reaches surfaces the failure (`ok = false`, the exception is
re-raised) and aborts the remaining batches, but the single-transaction
`conn.rollback()` discards every batch of the invocation: the committed
database is exactly the pre-invocation `db` — buckets committed by
*prior invocations* (already in `db.hourly`) remain, while batches
flushed earlier in the *same* invocation do not persist. -/
theorem C1_failure_aborts_and_rolls_back (db : DB) (now : ℤ) (days : ℕ)
    (k : ℕ) (hk : k < numBatches db now days) :
    aggregate_hourly_data db now days (some k) = ⟨db, false, k⟩ := by
  have hne : hoursNeeded db now days ≠ [] := by
    intro hc
    have h0 : numBatches db now days = 0 := by
      rw [numBatches, bucketsFor, hc]
      rfl
    omega
  rw [aggregate_hourly_data, if_neg hne]
  refine runBatches_fail db k _ db.hourly 0 (by omega) ?_
  have := hk
  rw [numBatches] at this
  omega

/-- C1 witness: a single-hour database with failure injected at batch 0
— the invocation fails and the database is unchanged. -/
theorem C1_failure_aborts_and_rolls_back_witness :
    0 < numBatches exDB1 3600 7 ∧
    aggregate_hourly_data exDB1 3600 7 (some 0) = ⟨exDB1, false, 0⟩ :=
  ⟨by decide,
    C1_failure_aborts_and_rolls_back exDB1 3600 7 0 (by decide)⟩

set_option maxRecDepth 400000 in
/-- C1 counterexample to the claim as stated: 101 hours of raw ticks
form two batches; with the storage failure injected at the second batch
(index 1), the first batch has already been flushed
(`writes = 1`) and the failure surfaces (`ok = false`), yet the
committed hourly table is empty — the 100 buckets of the prior batch of
this same invocation did NOT remain persisted. -/
theorem C1_counterexample_prior_batches_lost :
    2 ≤ numBatches exDB101 363600 7 ∧
    aggregate_hourly_data exDB101 363600 7 (some 1)
      = ⟨exDB101, false, 1⟩ ∧
    (aggregate_hourly_data exDB101 363600 7 (some 1)).writes = 1 ∧
    (aggregate_hourly_data exDB101 363600 7 (some 1)).db.hourly = [] := by
  have h2 : 2 ≤ numBatches exDB101 363600 7 := by decide
  have hagg : aggregate_hourly_data exDB101 363600 7 (some 1)
      = ⟨exDB101, false, 1⟩ := by
    rw [aggregate_hourly_data, if_neg (by decide)]
    refine runBatches_fail exDB101 1 _ exDB101.hourly 0 (by omega) ?_
    have := h2
    rw [numBatches] at this
    omega
  exact ⟨h2, hagg, by rw [hagg], by rw [hagg]; rfl⟩

/-! ### Aggregator idempotence (C5) -/

theorem flushBatches_foldl :
    ∀ (l batch p : List Bucket),
      (flushBatches batch l).foldl execute_batch_insert p
        = l.foldl upsert (batch.foldl upsert p) := by
  intro l
  induction l with
  | nil =>
    intro batch p
    by_cases hb : batch = []
    · subst hb; simp [flushBatches]
    · simp [flushBatches, hb, execute_batch_insert]
  | cons b rest ih =>
    intro batch p
    simp only [flushBatches]
    by_cases hlen : 100 ≤ (batch ++ [b]).length
    · rw [if_pos hlen, List.foldl_cons, ih]
      simp [execute_batch_insert, List.foldl_append]
    · rw [if_neg hlen, ih]
      simp [List.foldl_append]

theorem chunks100_foldl (l p : List Bucket) :
    (chunks100 l).foldl execute_batch_insert p = l.foldl upsert p := by
  rw [chunks100, flushBatches_foldl]
  rfl

theorem ts_upsert_replace (hs : List Bucket) (b : Bucket) :
    (hs.map fun h => if h.timestamp = b.timestamp then b else h).map
        (·.timestamp) = hs.map (·.timestamp) := by
  rw [List.map_map]
  refine List.map_congr_left ?_
  intro h _
  by_cases hc : h.timestamp = b.timestamp
  · simp [hc]
  · simp [hc]

theorem mem_ts_upsert_of_left {x : ℤ} (hs : List Bucket) (b : Bucket)
    (h : x ∈ hs.map (·.timestamp)) :
    x ∈ (upsert hs b).map (·.timestamp) := by
  rw [upsert]
  by_cases hmem : b.timestamp ∈ hs.map (·.timestamp)
  · rw [if_pos hmem, ts_upsert_replace]
    exact h
  · rw [if_neg hmem, List.map_append]
    exact List.mem_append_left _ h

theorem mem_ts_upsert_self (hs : List Bucket) (b : Bucket) :
    b.timestamp ∈ (upsert hs b).map (·.timestamp) := by
  rw [upsert]
  by_cases hmem : b.timestamp ∈ hs.map (·.timestamp)
  · rw [if_pos hmem, ts_upsert_replace]
    exact hmem
  · rw [if_neg hmem, List.map_append]
    exact List.mem_append_right _ (by simp)

theorem mem_ts_foldl_of_left {x : ℤ} :
    ∀ (bs hs : List Bucket), x ∈ hs.map (·.timestamp) →
      x ∈ (bs.foldl upsert hs).map (·.timestamp) := by
  intro bs
  induction bs with
  | nil => intro hs h; exact h
  | cons b rest ih =>
    intro hs h
    exact ih _ (mem_ts_upsert_of_left hs b h)

theorem mem_ts_foldl_of_mem {b : Bucket} :
    ∀ (bs hs : List Bucket), b ∈ bs →
      b.timestamp ∈ (bs.foldl upsert hs).map (·.timestamp) := by
  intro bs
  induction bs with
  | nil => intro hs h; cases h
  | cons c rest ih =>
    intro hs h
    rcases List.mem_cons.mp h with rfl | hmem
    · exact mem_ts_foldl_of_left rest _ (mem_ts_upsert_self hs b)
    · exact ih _ hmem

theorem truncHour_bounds (t : ℤ) :
    truncHour t ≤ t ∧ t < truncHour t + 3600 := by
  have h1 : (3600 : ℤ) * (t / 3600) + t % 3600 = t := Int.ediv_add_emod t 3600
  have h2 : 0 ≤ t % 3600 := Int.emod_nonneg t (by norm_num)
  have h3 : t % 3600 < 3600 := Int.emod_lt_of_pos t (by norm_num)
  rw [truncHour]
  omega

/-- C5: the aggregator is idempotent — an invocation buckets exactly the
truncated hours that have a tick and no bucket yet, so running it a
second time over the same raw window (no new ticks, same `now`) finds no
hour needing aggregation: it performs no writes (`writes = 0`), returns
normally, and leaves the hourly table exactly as the first run left it. -/
theorem C5_aggregator_idempotent (db : DB) (now : ℤ) (days : ℕ) :
    aggregate_hourly_data
      (aggregate_hourly_data db now days none).db now days none
      = ⟨(aggregate_hourly_data db now days none).db, true, 0⟩ := by
  by_cases h0 : hoursNeeded db now days = []
  · have hr1 : (aggregate_hourly_data db now days none).db = db := by
      rw [aggregate_hourly_data, if_pos h0]
    rw [hr1, aggregate_hourly_data, if_pos h0]
  · have hr1db : (aggregate_hourly_data db now days none).db
        = { db with
            hourly := (bucketsFor db now days).foldl upsert db.hourly } := by
      rw [aggregate_hourly_data, if_neg h0, runBatches_none]
      show { db with
          hourly := (chunks100 (bucketsFor db now days)).foldl
            execute_batch_insert db.hourly } = _
      rw [chunks100_foldl]
    have hneed1 : ∀ h ∈ hoursNeeded db now days,
        h ∈ ((bucketsFor db now days).foldl upsert db.hourly).map
          (·.timestamp) := by
      intro h hh
      rw [hoursNeeded] at hh
      have hh2 := (List.perm_insertionSort _ _).mem_iff.mp hh
      have hh3 : h ∈ ((db.raw.filter
          fun t => cutoff now days < t.timestamp).map
            fun t => truncHour t.timestamp) :=
        List.mem_dedup.mp (List.mem_of_mem_filter hh2)
      rcases List.mem_map.mp hh3 with ⟨t, ht, hth⟩
      have htraw : t ∈ db.raw := List.mem_of_mem_filter ht
      have hbounds := truncHour_bounds t.timestamp
      have htin : t ∈ db.raw.filter
          (fun u => h ≤ u.timestamp ∧ u.timestamp < h + 3600) := by
        refine List.mem_filter.mpr ⟨htraw, ?_⟩
        simp only [decide_eq_true_eq]
        rw [← hth]
        exact ⟨hbounds.1, hbounds.2⟩
      have hrows_ne : hourRows db h ≠ [] := by
        intro hc
        have hmem2 : t ∈ hourRows db h :=
          (List.perm_insertionSort _ _).mem_iff.mpr htin
        rw [hc] at hmem2
        cases hmem2
      have hbucket : mkBucket h (hourRows db h) ∈ bucketsFor db now days := by
        rw [bucketsFor]
        refine List.mem_filterMap.mpr ⟨h, by rw [hoursNeeded]; exact hh, ?_⟩
        cases hcase : hourRows db h with
        | nil => exact absurd hcase hrows_ne
        | cons r rs => rfl
      have hts : (mkBucket h (hourRows db h)).timestamp = h := rfl
      exact hts ▸ mem_ts_foldl_of_mem _ _ hbucket
    have hneed2 : hoursNeeded
        { db with
          hourly := (bucketsFor db now days).foldl upsert db.hourly }
        now days = [] := by
      rw [hoursNeeded]
      have hfilter : (((db.raw.filter
          fun t => cutoff now days < t.timestamp).map
            fun t => truncHour t.timestamp).dedup).filter
          (fun h => h ∉ ((bucketsFor db now days).foldl upsert
            db.hourly).map (·.timestamp)) = [] := by
        rw [List.filter_eq_nil_iff]
        intro a ha
        simp only [decide_eq_true_eq, not_not]
        by_cases hmem : a ∈ db.hourly.map (·.timestamp)
        · exact mem_ts_foldl_of_left _ _ hmem
        · refine hneed1 a ?_
          rw [hoursNeeded]
          refine (List.perm_insertionSort _ _).mem_iff.mpr ?_
          refine List.mem_filter.mpr ⟨ha, ?_⟩
          simpa using hmem
      rw [hfilter]
      rfl
    rw [hr1db, aggregate_hourly_data, if_pos hneed2]

/-! ### Engine purity (C8) -/

theorem getObj_append_left {σ : Store} {r : ℕ} (h : r < σ.length)
    (d : DFh) : getObj (σ ++ [d]) r = getObj σ r := by
  rw [getObj, getObj, List.getD_eq_getElem?_getD, List.getD_eq_getElem?_getD,
    List.getElem?_append, if_pos h]

theorem getObj_set_ne {r j : ℕ} (hne : r ≠ j) (σ : Store) (d : DFh) :
    getObj (setObj σ r d) j = getObj σ j := by
  rw [getObj, getObj, setObj, List.getD_eq_getElem?_getD,
    List.getD_eq_getElem?_getD, List.getElem?_set_ne hne]

theorem getObj_set_self {r : ℕ} (σ : Store) (d : DFh) (h : r < σ.length) :
    getObj (setObj σ r d) r = d := by
  rw [getObj, setObj, List.getD_eq_getElem?_getD, List.getElem?_set_self h]
  rfl

/-- Every transform of the engine has the same store shape: allocate the
sorted copy (`df.sort_values("timestamp").copy()`), then mutate only the
fresh object into its final frame `F (input)`.  Such a step is pure. -/
theorem stepPure (F C : DFh → DFh) :
    TransformPure (fun σ r =>
      (setObj (σ ++ [C (getObj σ r)]) σ.length (F (getObj σ r)),
        σ.length)) := by
  intro σ r hr _
  have hlen : (setObj (σ ++ [C (getObj σ r)]) σ.length
      (F (getObj σ r))).length = σ.length + 1 := by
    rw [setObj, List.length_set, List.length_append]
    rfl
  have hne : σ.length ≠ r := fun hc => absurd (hc ▸ hr) (lt_irrefl _)
  have hpres : getObj (setObj (σ ++ [C (getObj σ r)]) σ.length
      (F (getObj σ r))) r = getObj σ r := by
    rw [getObj_set_ne hne, getObj_append_left hr]
  have hout : getObj (setObj (σ ++ [C (getObj σ r)]) σ.length
      (F (getObj σ r))) σ.length = F (getObj σ r) := by
    apply getObj_set_self
    rw [List.length_append]
    simp
  refine ⟨hpres, ?_, ?_⟩
  · show getObj (setObj (_ ++ [C (getObj _ r)]) _ (F (getObj _ r))) r
      = getObj σ r
    have hr1 : r < (setObj (σ ++ [C (getObj σ r)]) σ.length
        (F (getObj σ r))).length := by rw [hlen]; omega
    have hne1 : (setObj (σ ++ [C (getObj σ r)]) σ.length
        (F (getObj σ r))).length ≠ r :=
      fun hc => absurd (hc ▸ hr1) (lt_irrefl _)
    rw [getObj_set_ne hne1, getObj_append_left hr1, hpres]
  · show getObj (setObj (_ ++ [C (getObj _ r)]) _ (F (getObj _ r))) _
      = getObj (setObj (σ ++ [C (getObj σ r)]) σ.length (F (getObj σ r)))
          σ.length
    have hr1 : r < (setObj (σ ++ [C (getObj σ r)]) σ.length
        (F (getObj σ r))).length := by rw [hlen]; omega
    have hout1 : getObj (setObj
        ((setObj (σ ++ [C (getObj σ r)]) σ.length (F (getObj σ r)))
          ++ [C (getObj (setObj (σ ++ [C (getObj σ r)]) σ.length
            (F (getObj σ r))) r)])
        (setObj (σ ++ [C (getObj σ r)]) σ.length (F (getObj σ r))).length
        (F (getObj (setObj (σ ++ [C (getObj σ r)]) σ.length
          (F (getObj σ r))) r)))
        (setObj (σ ++ [C (getObj σ r)]) σ.length (F (getObj σ r))).length
        = F (getObj (setObj (σ ++ [C (getObj σ r)]) σ.length
            (F (getObj σ r))) r) := by
      apply getObj_set_self
      rw [List.length_append]
      simp
    rw [hout1, hpres, hout]

/-- C8: each of the four engine transforms, replayed as its Python
statement sequence over the object store, is pure at its interface: the
caller's input frame is unmodified after the first and after the second
call, and the second call's output frame is bit-identical to the first
call's. -/
theorem C8_engine_transforms_pure :
    (∀ w, TransformPure (maHeap w)) ∧
    (∀ w, TransformPure (rsiHeap w)) ∧
    (∀ w k, TransformPure (bbHeap w k)) ∧
    (∀ f s g, TransformPure (macdHeap f s g)) :=
  ⟨fun w => stepPure (maObj w) sortCopy,
   fun w => stepPure (rsiObj w) sortCopy,
   fun w k => stepPure (bbObj w k) sortCopy,
   fun f s g => stepPure (macdObj f s g) sortCopy⟩

/-- C8 witness: on a concrete one-frame store, each transform leaves the
caller's frame at reference 0 exactly as it was. -/
theorem C8_engine_transforms_pure_witness :
    0 < exStore.length ∧ (getObj exStore 0).extra = [] ∧
    getObj (maHeap 2 exStore 0).1 0 = getObj exStore 0 ∧
    getObj (rsiHeap 2 exStore 0).1 0 = getObj exStore 0 ∧
    getObj (bbHeap 2 2 exStore 0).1 0 = getObj exStore 0 ∧
    getObj (macdHeap 12 26 9 exStore 0).1 0 = getObj exStore 0 := by
  have h1 : 0 < exStore.length := by decide
  have h2 : (getObj exStore 0).extra = [] := rfl
  exact ⟨h1, h2,
    (C8_engine_transforms_pure.1 2 exStore 0 h1 h2).1,
    (C8_engine_transforms_pure.2.1 2 exStore 0 h1 h2).1,
    (C8_engine_transforms_pure.2.2.1 2 2 exStore 0 h1 h2).1,
    (C8_engine_transforms_pure.2.2.2 12 26 9 exStore 0 h1 h2).1⟩
